import Mathlib

/-!
Verification of `src/nix/extract-uncovered-snippets.py`: an LCOV-to-markdown
coverage report tool.  The script is shallowly embedded below: Python strings
are Lean `String`s (sequences of code points), the LCOV input is a list of
lines (already stripped of their trailing newline, as the script does with
`rstrip("\n")`), the Python dict accumulating uncovered lines is an
association list preserving insertion order, and the file system is an
explicit record of an `exists` test and a fallible `read`.
-/

namespace Lcov

/-- Model of a decimal digit character, `chr(48 + d)` for a digit value `d`. -/
def digitChar (d : Nat) : Char := Char.ofNat (48 + d)

/-- Test for an ASCII decimal digit, as matched by the `\d` regex class. -/
def isDigitChar (c : Char) : Bool := 48 ≤ c.toNat && c.toNat ≤ 57

/-- Value of a big-endian list of digit characters, as computed by Python
`int(...)` on a digit string. -/
def digitsVal (cs : List Char) : Nat :=
  cs.foldl (fun a c => 10 * a + (c.toNat - 48)) 0

/-- Fuel-driven production of the decimal digits of `n` (big-endian, no
leading zeros); the fuel argument only makes the recursion structural. -/
def renderAux : Nat → Nat → List Char
  | 0, _ => []
  | _ + 1, 0 => []
  | fuel + 1, n + 1 => renderAux fuel ((n + 1) / 10) ++ [digitChar ((n + 1) % 10)]

/-- Modelled from the spec: the decimal rendering of a natural number, the
behaviour of Python's built-in `str` on a non-negative `int`. -/
def render (n : Nat) : List Char := if n = 0 then ['0'] else renderAux (n + 1) n

/-- `str(n)` as a Lean `String`. -/
def pyStr (n : Nat) : String := String.mk (render n)

/-- Parse a chunk of characters as a decimal number: succeeds exactly on a
nonempty all-digit chunk ("parse bare numbers directly"). -/
def parseDigits (cs : List Char) : Option Nat :=
  if cs.isEmpty then none
  else if cs.all isDigitChar then some (digitsVal cs) else none

/-- Split a character list on a separator character (model of Python
`str.split` on a one-character separator). -/
def splitOnChar (sep : Char) : List Char → List (List Char)
  | [] => [[]]
  | c :: cs =>
    if c = sep then [] :: splitOnChar sep cs
    else (splitOnChar sep cs).modifyHead (c :: ·)

/-- The loop of `format_line_ranges`: starting from the open run
`[s, e]`, fold the remaining numbers, extending the run when the next
number is exactly `e + 1` and otherwise closing it, returning the closed
runs as `(start, end)` pairs in order. -/
def rangesLoop (s e : Nat) : List Nat → List (Nat × Nat)
  | [] => [(s, e)]
  | num :: rest =>
    if num = e + 1 then rangesLoop s num rest
    else (s, e) :: rangesLoop num num rest

/-- Rendering of one closed run: `str(start)` for a singleton,
`f"{start}-{end}"` otherwise. -/
def renderRange (p : Nat × Nat) : String :=
  if p.1 = p.2 then pyStr p.1 else pyStr p.1 ++ "-" ++ pyStr p.2

/-- Model of Python `", ".join(...)`. -/
def joinCommaSpace : List String → String
  | [] => ""
  | [s] => s
  | s :: t :: rest => s ++ ", " ++ joinCommaSpace (t :: rest)

/-- `format_line_ranges` from the script: compact a list of line numbers
into the `"213-216, 222-225, 232"` notation. -/
def format_line_ranges : List Nat → String
  | [] => ""
  | x :: rest => joinCommaSpace ((rangesLoop x x rest).map renderRange)

/-- The inclusive integer range denoted by one `(start, end)` run. -/
def cover (p : Nat × Nat) : List Nat := List.range' p.1 (p.2 + 1 - p.1)

/-- One comma-separated chunk of the compacted string, expanded back to
integers per the claim's words: spaces are discarded, `a-b` expands to the
inclusive range, and a bare chunk is parsed as one number. -/
def expandPiece (p : List Char) : List Nat :=
  let q := p.filter (fun c => !(c == ' '))
  match splitOnChar '-' q with
  | [a] =>
    match parseDigits a with
    | some x => [x]
    | none => []
  | [a, b] =>
    match parseDigits a, parseDigits b with
    | some x, some y => List.range' x (y + 1 - x)
    | _, _ => []
  | _ => []

/-- Expansion of a compacted range string back to the integers it denotes:
split on commas, expand each chunk. -/
def expandRanges (s : String) : List Nat :=
  (splitOnChar ',' s.data).flatMap expandPiece

/-- Character-level test that `p` occurs at the start of `l`
(model of Python `str.startswith`). -/
def listStarts : List Char → List Char → Bool
  | _, [] => true
  | [], _ :: _ => false
  | c :: cs, d :: ds => c == d && listStarts cs ds

/-- `line.startswith(p)`. -/
def strStartsWith (s p : String) : Bool := listStarts s.data p.data

/-- Contiguous-substring test (model of Python `needle in haystack`). -/
def listHasSub (needle : List Char) : List Char → Bool
  | [] => needle.isEmpty
  | c :: cs => listStarts (c :: cs) needle || listHasSub needle cs

/-- `sub in s` for Python strings. -/
def strHasSub (s sub : String) : Bool := listHasSub sub.data s.data

/-- `s[n:]` for a Python string. -/
def strDrop (s : String) (n : Nat) : String := String.mk (s.data.drop n)

/-- Model of `re.match(r"DA:(\d+),(\d+)", line)`: a prefix match anchored at
the start of the line, returning the two captured integers. -/
def parseDA (line : String) : Option (Nat × Nat) :=
  match line.data with
  | d :: a :: colon :: rest =>
    if d = 'D' ∧ a = 'A' ∧ colon = ':' then
      let ds₁ := rest.takeWhile isDigitChar
      let rest₁ := rest.dropWhile isDigitChar
      if ds₁.isEmpty then none
      else
        match rest₁ with
        | c :: rest₂ =>
          if c = ',' then
            let ds₂ := rest₂.takeWhile isDigitChar
            if ds₂.isEmpty then none else some (digitsVal ds₁, digitsVal ds₂)
          else none
        | [] => none
    else none
  | _ => none

/-- The `uncovered_lines` Python dict: an insertion-ordered association list
from file path to collected uncovered line numbers. -/
abbrev CovMap := List (String × List Nat)

/-- Dict membership / item access. -/
def alistLookup (k : String) : CovMap → Option (List Nat)
  | [] => none
  | (k', v) :: rest => if k' = k then some v else alistLookup k rest

/-- `uncovered_lines[k].append(n)`: append `n` to the entry of key `k`. -/
def appendAt (m : CovMap) (k : String) (n : Nat) : CovMap :=
  m.map (fun p => if p.1 = k then (p.1, p.2 ++ [n]) else p)

/-- Python truthiness of `current_file : Optional[str]`
(`None` and the empty string are falsy). -/
def truthy : Option String → Bool
  | some s => !s.data.isEmpty
  | none => false

/-- The mutable parse state of `parse_lcov`. -/
structure ParseState where
  uncovered : CovMap
  current : Option String
  is_project : Bool

/-- One iteration of the `parse_lcov` loop body over an input line (already
stripped of its trailing newline). -/
def parseLcovLine (st : ParseState) (line : String) : ParseState :=
  if strStartsWith line "SF:" then
    let file_path := strDrop line 3
    let is_project_file := !(strHasSub file_path "/nix/store")
    { uncovered :=
        if is_project_file && (alistLookup file_path st.uncovered).isNone
        then st.uncovered ++ [(file_path, [])]
        else st.uncovered,
      current := some file_path,
      is_project := is_project_file }
  else if strStartsWith line "DA:" && truthy st.current && st.is_project then
    match st.current with
    | some cf =>
      match parseDA line with
      | some (line_num, hit_count) =>
        if hit_count = 0 then { st with uncovered := appendAt st.uncovered cf line_num }
        else st
      | none => st
    | none => st
  else if line = "end_of_record" then
    { uncovered := st.uncovered, current := none, is_project := false }
  else st

/-- `parse_lcov`: fold the loop body over the input lines starting from the
empty state and return the accumulated mapping. -/
def parse_lcov (lines : List String) : CovMap :=
  (lines.foldl parseLcovLine ⟨[], none, false⟩).uncovered

/-- Model of Python `sorted` on a list of integers. -/
def sortNums (l : List Nat) : List Nat := List.insertionSort (· ≤ ·) l

/-- The grouping loop of `generate_report`: `cur` is the group currently
being built (`groups[-1]`), `last` its most recently appended element
(`groups[-1][-1]`); a new group starts when the gap exceeds `2 * context`.
The gap test is on Python ints, hence over `Int`. -/
def groupLoop (context : Nat) (cur : List Nat) (last : Nat) : List Nat → List (List Nat)
  | [] => [cur]
  | n :: ns =>
    if (n : Int) - last ≤ 2 * context then groupLoop context (cur ++ [n]) n ns
    else cur :: groupLoop context [n] n ns

/-- The `groups` list built by `generate_report` from the sorted uncovered
line numbers of one file. -/
def computeGroups (context : Nat) : List Nat → List (List Nat)
  | [] => []
  | x :: xs => groupLoop context [x] x xs

/-- Python `min` over a nonempty list (0 as an arbitrary value on `[]`,
which the script never passes). -/
def pyMin : List Nat → Nat
  | [] => 0
  | x :: xs => xs.foldl min x

/-- Python `max` over a nonempty list. -/
def pyMax : List Nat → Nat
  | [] => 0
  | x :: xs => xs.foldl max x

/-- `start_idx = max(0, min_line - 1 - context)` (Nat subtraction already
truncates at 0 exactly as Python's `max(0, ...)` does). -/
def group_start_idx (context : Nat) (g : List Nat) : Nat :=
  max 0 (pyMin g - 1 - context)

/-- `end_idx = min(len(source_lines), max_line + context)`. -/
def group_end_idx (len context : Nat) (g : List Nat) : Nat :=
  min len (pyMax g + context)

/-- `snippet = source_lines[start_idx:end_idx]`. -/
def snippetOf (source_lines : List String) (context : Nat) (g : List Nat) : List String :=
  (source_lines.drop (group_start_idx context g)).take
    (group_end_idx source_lines.length context g - group_start_idx context g)

/-- The absolute (1-indexed) line numbers printed next to the snippet lines
of a group: `start_line + i` for each index `i` into the snippet. -/
def renderedNums (source_lines : List String) (context : Nat) (g : List Nat) : List Nat :=
  List.range' (group_start_idx context g + 1) (snippetOf source_lines context g).length

/-- `f"{n:4d}"`: right-align in width 4 with spaces. -/
def pad4 (n : Nat) : String :=
  String.mk (List.replicate (4 - (render n).length) ' ') ++ pyStr n

/-- The per-line rows of one snippet body, `f"{marker} {num:4d} | {line}\n"`,
with the uncovered marker exactly on the members of the group. -/
def snippet_lines (source_lines : List String) (context : Nat) (g : List Nat) : List String :=
  ((renderedNums source_lines context g).zip (snippetOf source_lines context g)).map
    (fun p => (if g.contains p.1 then "❌" else "  ") ++ " " ++ pad4 p.1 ++ " | " ++ p.2 ++ "\n")

/-- One labeled snippet block (`### Snippet i (Lines a-b)`, fenced body). -/
def snippetBlock (source_lines : List String) (context : Nat) (ig : Nat × List Nat) : List String :=
  ("### Snippet " ++ pyStr ig.1 ++ " (Lines " ++ pyStr (group_start_idx context ig.2 + 1)
      ++ "-" ++ pyStr (group_start_idx context ig.2 + 1 + (snippetOf source_lines context ig.2).length - 1)
      ++ ")\n\n")
    :: "```rust\n"
    :: snippet_lines source_lines context ig.2 ++ ["```\n\n"]

/-- Model of `enumerate(groups, 1)`. -/
def withIdx (i : Nat) : List (List Nat) → List (Nat × List Nat)
  | [] => []
  | g :: gs => (i, g) :: withIdx (i + 1) gs

/-- The file system visible to the script: an existence test (`Path.exists`)
and a fallible read returning the file's lines (rstripped of newlines),
`none` when `open` raises `OSError`. -/
structure FS where
  pathExists : String → Bool
  read : String → Option (List String)

/-- Model of `pathlib`'s `/` operator in the simple relative case. -/
def pathJoin (a b : String) : String := a ++ "/" ++ b

/-- POSIX `Path.is_absolute`. -/
def isAbsolute (p : String) : Bool := strStartsWith p "/"

/-- The three-tier path resolution of `generate_report`: absolute paths are
used directly; otherwise `src_root / p` if it exists; otherwise `p` as-is. -/
def resolvePath (fs : FS) (src_root : String) (p : String) : String :=
  if isAbsolute p then p
  else if fs.pathExists (pathJoin src_root p) then pathJoin src_root p
  else p

/-- `read_source_file`: returns the lines, or `None` when unreadable. -/
def read_source_file (fs : FS) (p : String) : Option (List String) := fs.read p

/-- The lines appended to the report for one file of the mapping: a warning
section when the source is unreadable, otherwise the compacted ranges and
one snippet block per group. -/
def perFile (uncovered_lines : CovMap) (src_root : String) (fs : FS) (context : Nat)
    (f : String) : List String :=
  let actual_path := resolvePath fs src_root f
  let uncovered_nums := sortNums ((alistLookup f uncovered_lines).getD [])
  match read_source_file fs actual_path with
  | none =>
    ["\n## " ++ f ++ "\n",
     "⚠️ **Unable to read source file**\n",
     "Uncovered lines: " ++ format_line_ranges uncovered_nums ++ "\n"]
  | some source_lines =>
    ("\n## " ++ f ++ "\n")
      :: ("**Uncovered Lines**: " ++ format_line_ranges uncovered_nums ++ "\n\n")
      :: (withIdx 1 (computeGroups context uncovered_nums)).flatMap
          (snippetBlock source_lines context)

/-- `files_with_uncovered`: drop files whose uncovered list is empty. -/
def files_with_uncovered (uncovered_lines : CovMap) : CovMap :=
  uncovered_lines.filter (fun p => !p.2.isEmpty)

/-- `sorted_files = sorted(files_with_uncovered.keys())` (dict keys are
distinct, so any correct sort models Python's). -/
def sorted_files (uncovered_lines : CovMap) : List String :=
  List.insertionSort (· ≤ ·) ((files_with_uncovered uncovered_lines).map (·.1))

/-- `total_uncovered = sum(len(nums) for nums in files_with_uncovered.values())`. -/
def total_uncovered (uncovered_lines : CovMap) : Nat :=
  ((files_with_uncovered uncovered_lines).map (fun p => p.2.length)).sum

/-- The title, preamble and summary block of the report. -/
def reportHeader (uncovered_lines : CovMap) (context : Nat) : List String :=
  ["# Uncovered Code Snippets\n",
   "This document contains all code snippets that are not covered by tests.\n",
   "Context: " ++ pyStr context ++ " lines before/after each uncovered line.\n",
   "\n## Summary\n",
   "- **Total Files**: " ++ pyStr (sorted_files uncovered_lines).length ++ "\n",
   "- **Total Uncovered Lines**: " ++ pyStr (total_uncovered uncovered_lines) ++ "\n\n"]

/-- The closing attribution footer. -/
def reportFooter : List String :=
  ["---\n", "*Report generated by extract-uncovered-snippets.py*\n"]

/-- The full `report_lines` list built by `generate_report`. -/
def report_line_list (uncovered_lines : CovMap) (src_root : String) (fs : FS)
    (context : Nat) : List String :=
  reportHeader uncovered_lines context
  ++ (sorted_files uncovered_lines).flatMap (perFile uncovered_lines src_root fs context)
  ++ reportFooter

/-- `generate_report`: `"".join(report_lines)`. -/
def generate_report (uncovered_lines : CovMap) (src_root : String) (fs : FS)
    (context : Nat) : String :=
  String.join (report_line_list uncovered_lines src_root fs context)

/-- `main`, with process exit abstracted into `Except`: `error` is a fatal
non-zero exit carrying the diagnostic, `ok` the successfully written report. -/
def main_model (fs : FS) (args : List String) (cwd : String) : Except String String :=
  match args with
  | _ :: lcov_file :: _output_file :: rest =>
    let src_root := rest.headD cwd
    if !(fs.pathExists lcov_file) then
      Except.error ("Error: LCOV file not found: " ++ lcov_file)
    else
      match fs.read lcov_file with
      | none => Except.error "Error reading LCOV file"
      | some lines => Except.ok (generate_report (parse_lcov lines) src_root fs 3)
  | _ => Except.error "Usage: extract-uncovered-snippets.py <lcov_file> <output_file> [src_root]"

/-- Every key of the mapping is free of the exclusion marker. -/
def goodMap (m : CovMap) : Prop :=
  ∀ q ∈ m, strHasSub q.1 "/nix/store" = false

/-- A concrete 16-line source file used by the end-to-end scenario. -/
def exampleSource : List String :=
  ["one", "two", "three", "four", "five", "six", "seven", "eight",
   "nine", "ten", "eleven", "twelve", "thirteen", "fourteen", "fifteen", "sixteen"]

/-- A concrete file system holding only `/root/src/a.rs`. -/
def exampleFs : FS where
  pathExists := fun p => p == "/root/src/a.rs"
  read := fun p => if p == "/root/src/a.rs" then some exampleSource else none

/-- A two-file coverage input: `src/a.rs` has lines 10 and 11 uncovered,
`src/b.rs` is fully covered. -/
def exampleLcov : List String :=
  ["SF:src/a.rs", "DA:9,4", "DA:10,0", "DA:11,0", "DA:12,2", "end_of_record",
   "SF:src/b.rs", "DA:1,5", "end_of_record"]

/-- The report lines generated end-to-end for the example scenario with
context 3 and source root `/root`. -/
def exampleReport : List String :=
  report_line_list (parse_lcov exampleLcov) "/root" exampleFs 3

/-- Consecutive members of one group are within `2 * context` of each
other. -/
def withinGroup (context : Nat) (g : List Nat) : Prop :=
  List.Chain' (fun a b : Nat => (b : Int) - (a : Int) ≤ 2 * (context : Int)) g

/-- The gap between the last element of one group and the first element of
the next exceeds `2 * context`. -/
def boundaryGap (context : Nat) (g₁ g₂ : List Nat) : Prop :=
  ∀ x ∈ g₁.getLast?, ∀ y ∈ g₂.head?, (y : Int) - x > 2 * context

theorem digitChar_toNat : ∀ d, d < 10 → (digitChar d).toNat = 48 + d := by decide

theorem digitChar_isDigit : ∀ d, d < 10 → isDigitChar (digitChar d) = true := by decide

theorem digit_ne (c : Char) (h : isDigitChar c = true) :
    c ≠ ',' ∧ c ≠ '-' ∧ c ≠ ' ' := by
  refine ⟨?_, ?_, ?_⟩ <;> rintro rfl <;> exact absurd h (by decide)

theorem renderAux_mem : ∀ fuel n c, c ∈ renderAux fuel n → ∃ d, d < 10 ∧ c = digitChar d := by
  intro fuel
  induction fuel with
  | zero => intro n c hc; simp [renderAux] at hc
  | succ f ih =>
    intro n c hc
    match n with
    | 0 => simp [renderAux] at hc
    | m + 1 =>
      simp only [renderAux, List.mem_append, List.mem_singleton] at hc
      rcases hc with hc | hc
      · exact ih _ c hc
      · exact ⟨(m + 1) % 10, Nat.mod_lt _ (by norm_num), hc⟩

theorem render_mem (n : Nat) (c : Char) (hc : c ∈ render n) :
    ∃ d, d < 10 ∧ c = digitChar d := by
  unfold render at hc
  by_cases h : n = 0
  · simp [h] at hc
    exact ⟨0, by norm_num, by simp [hc, digitChar]⟩
  · rw [if_neg h] at hc
    exact renderAux_mem _ _ c hc

theorem render_digit (n : Nat) (c : Char) (hc : c ∈ render n) : isDigitChar c = true := by
  obtain ⟨d, hd, rfl⟩ := render_mem n c hc
  exact digitChar_isDigit d hd

theorem render_ne_nil (n : Nat) : render n ≠ [] := by
  unfold render
  by_cases h : n = 0
  · simp [h]
  · rw [if_neg h]
    match n, h with
    | m + 1, _ => simp [renderAux]

theorem digitsVal_append_single (l : List Char) (c : Char) :
    digitsVal (l ++ [c]) = 10 * digitsVal l + (c.toNat - 48) := by
  simp [digitsVal, List.foldl_append]

theorem renderAux_val : ∀ fuel n, n ≤ fuel → digitsVal (renderAux fuel n) = n := by
  intro fuel
  induction fuel with
  | zero => intro n h; interval_cases n; simp [renderAux, digitsVal]
  | succ f ih =>
    intro n h
    match n with
    | 0 => simp [renderAux, digitsVal]
    | m + 1 =>
      have hdiv : (m + 1) / 10 ≤ f := by
        have := Nat.div_lt_self (Nat.succ_pos m) (by norm_num : 1 < 10)
        omega
      have hmod : (m + 1) % 10 < 10 := Nat.mod_lt _ (by norm_num)
      rw [renderAux, digitsVal_append_single, ih _ hdiv, digitChar_toNat _ hmod]
      omega

theorem digitsVal_render (n : Nat) : digitsVal (render n) = n := by
  unfold render
  by_cases h : n = 0
  · simp [h, digitsVal]
  · rw [if_neg h]
    exact renderAux_val (n + 1) n (by omega)

theorem parseDigits_render (n : Nat) : parseDigits (render n) = some n := by
  unfold parseDigits
  rw [if_neg (by simpa [List.isEmpty_iff] using render_ne_nil n)]
  rw [if_pos (List.all_eq_true.mpr fun c hc => render_digit n c hc)]
  rw [digitsVal_render]

theorem splitOnChar_not_mem (sep : Char) (l : List Char) (h : ∀ x ∈ l, x ≠ sep) :
    splitOnChar sep l = [l] := by
  induction l with
  | nil => rfl
  | cons c cs ih =>
    have hc : ¬(c = sep) := h c (by simp)
    rw [splitOnChar, if_neg hc, ih (fun x hx => h x (by simp [hx]))]
    rfl

theorem splitOnChar_append (sep : Char) (l₁ l₂ : List Char) (h : ∀ x ∈ l₁, x ≠ sep) :
    splitOnChar sep (l₁ ++ sep :: l₂) = l₁ :: splitOnChar sep l₂ := by
  induction l₁ with
  | nil => simp [splitOnChar]
  | cons c cs ih =>
    have hc : ¬(c = sep) := h c (by simp)
    rw [List.cons_append, splitOnChar, if_neg hc,
      ih (fun x hx => h x (by simp [hx]))]
    rfl

theorem renderRange_data (p : Nat × Nat) :
    (renderRange p).data =
      if p.1 = p.2 then render p.1 else render p.1 ++ '-' :: render p.2 := by
  unfold renderRange pyStr
  split
  · rfl
  · show (String.mk (render p.1) ++ "-" ++ String.mk (render p.2)).data = _
    simp [String.data_append]

theorem renderRange_chars (p : Nat × Nat) (c : Char) (hc : c ∈ (renderRange p).data) :
    c ≠ ',' ∧ c ≠ ' ' := by
  rw [renderRange_data] at hc
  by_cases h : p.1 = p.2
  · rw [if_pos h] at hc
    have := digit_ne c (render_digit _ c hc)
    exact ⟨this.1, this.2.2⟩
  · rw [if_neg h] at hc
    rcases List.mem_append.mp hc with hc | hc
    · have := digit_ne c (render_digit _ c hc)
      exact ⟨this.1, this.2.2⟩
    · rcases List.mem_cons.mp hc with rfl | hc
      · exact ⟨by decide, by decide⟩
      · have := digit_ne c (render_digit _ c hc)
        exact ⟨this.1, this.2.2⟩

theorem joinCommaSpace_cons₂ (a b : String) (L : List String) :
    (joinCommaSpace (a :: b :: L)).data =
      a.data ++ ',' :: ' ' :: (joinCommaSpace (b :: L)).data := by
  show (a ++ ", " ++ joinCommaSpace (b :: L)).data = _
  simp [String.data_append]

theorem split_join_render (p : Nat × Nat) (pr : List (Nat × Nat)) :
    splitOnChar ',' ((joinCommaSpace ((p :: pr).map renderRange)).data)
      = (renderRange p).data :: pr.map (fun r => ' ' :: (renderRange r).data) := by
  induction pr generalizing p with
  | nil =>
    show splitOnChar ',' (renderRange p).data = _
    simp [splitOnChar_not_mem ',' _ (fun c hc => (renderRange_chars p c hc).1)]
  | cons q rest ih =>
    rw [List.map_cons, List.map_cons, joinCommaSpace_cons₂, ← List.map_cons renderRange,
      splitOnChar_append ',' _ _ (fun c hc => (renderRange_chars p c hc).1)]
    rw [splitOnChar, if_neg (by decide), ih q]
    rfl

theorem expandPiece_core (p : Nat × Nat) :
    expandPiece ((renderRange p).data) = cover p ∧
    expandPiece (' ' :: (renderRange p).data) = cover p := by
  have hfilter : ((renderRange p).data).filter (fun c => !(c == ' ')) = (renderRange p).data :=
    List.filter_eq_self.mpr fun c hc => by
      simpa using (renderRange_chars p c hc).2
  have hcore : expandPiece ((renderRange p).data) = cover p := by
    unfold expandPiece
    simp only [hfilter]
    rw [renderRange_data]
    by_cases h : p.1 = p.2
    · rw [if_pos h]
      have hnd : ∀ x ∈ render p.1, x ≠ '-' :=
        fun x hx => (digit_ne x (render_digit _ x hx)).2.1
      rw [splitOnChar_not_mem '-' _ hnd]
      simp [parseDigits_render, cover, h]
    · rw [if_neg h]
      have hnd : ∀ x ∈ render p.1, x ≠ '-' :=
        fun x hx => (digit_ne x (render_digit _ x hx)).2.1
      have hnd2 : ∀ x ∈ render p.2, x ≠ '-' :=
        fun x hx => (digit_ne x (render_digit _ x hx)).2.1
      rw [splitOnChar_append '-' _ _ hnd, splitOnChar_not_mem '-' _ hnd2]
      simp [parseDigits_render, cover]
  refine ⟨hcore, ?_⟩
  unfold expandPiece at hcore ⊢
  simpa [hfilter] using hcore

theorem rangesLoop_cons : ∀ (rest : List Nat) (s e : Nat),
    ∃ p pr, rangesLoop s e rest = p :: pr := by
  intro rest
  induction rest with
  | nil => intro s e; exact ⟨(s, e), [], rfl⟩
  | cons num ns ih =>
    intro s e
    by_cases h : num = e + 1
    · simpa [rangesLoop, h] using ih s num
    · exact ⟨(s, e), rangesLoop num num ns, by simp [rangesLoop, h]⟩

theorem expandRanges_format_cons (x : Nat) (rest : List Nat) :
    expandRanges (format_line_ranges (x :: rest)) = (rangesLoop x x rest).flatMap cover := by
  obtain ⟨p, pr, hpr⟩ := rangesLoop_cons rest x x
  show (splitOnChar ','
      (joinCommaSpace ((rangesLoop x x rest).map renderRange)).data).flatMap expandPiece = _
  rw [hpr, List.map_cons, ← List.map_cons renderRange, split_join_render]
  rw [List.flatMap_cons, (expandPiece_core p).1, List.flatMap_cons]
  congr 1
  rw [List.flatMap_map]
  exact List.flatMap_congr fun r _ => (expandPiece_core r).2

theorem mem_rangesLoop_cover : ∀ (rest : List Nat) (s e x : Nat), s ≤ e →
    (x ∈ (rangesLoop s e rest).flatMap cover ↔ (s ≤ x ∧ x ≤ e) ∨ x ∈ rest) := by
  intro rest
  induction rest with
  | nil =>
    intro s e x h
    simp only [rangesLoop, List.flatMap_cons, List.flatMap_nil, List.append_nil, cover,
      List.mem_range'_1, List.not_mem_nil, or_false]
    omega
  | cons num ns ih =>
    intro s e x h
    by_cases hn : num = e + 1
    · subst hn
      rw [rangesLoop, if_pos rfl, ih s (e + 1) x (by omega), List.mem_cons]
      constructor
      · rintro (⟨h1, h2⟩ | h3)
        · rcases Nat.lt_or_ge x (e + 1) with hx | hx
          · exact Or.inl ⟨h1, by omega⟩
          · exact Or.inr (Or.inl (by omega))
        · exact Or.inr (Or.inr h3)
      · rintro (⟨h1, h2⟩ | rfl | h3)
        · exact Or.inl ⟨h1, by omega⟩
        · exact Or.inl ⟨by omega, by omega⟩
        · exact Or.inr h3
    · rw [rangesLoop, if_neg hn, List.flatMap_cons, List.mem_append,
        ih num num x (le_refl num), List.mem_cons]
      simp only [cover, List.mem_range'_1]
      constructor
      · rintro (h1 | ⟨h2, h3⟩ | h4)
        · exact Or.inl ⟨by omega, by omega⟩
        · exact Or.inr (Or.inl (by omega))
        · exact Or.inr (Or.inr h4)
      · rintro (⟨h1, h2⟩ | rfl | h3)
        · exact Or.inl (by omega)
        · exact Or.inr (Or.inl ⟨le_refl x, by omega⟩)
        · exact Or.inr (Or.inr h3)

/-- C1: for every sorted ascending list of integers, expanding the string
returned by the range compactor (split on commas, expand each `a-b` to the
inclusive integer range, parse bare numbers directly) yields exactly the set
of integers in the input list; in particular the empty list yields the empty
string. -/
theorem format_line_ranges_expand_roundtrip (l : List Nat)
    (hs : List.Sorted (· ≤ ·) l) :
    (∀ x, x ∈ expandRanges (format_line_ranges l) ↔ x ∈ l) ∧
      format_line_ranges [] = "" := by
  refine ⟨?_, rfl⟩
  intro x
  match l with
  | [] =>
    constructor
    · intro hx
      simp [expandRanges, format_line_ranges, splitOnChar, expandPiece,
        parseDigits] at hx
    · intro hx
      simp at hx
  | y :: rest =>
    rw [expandRanges_format_cons, mem_rangesLoop_cover rest y y x (le_refl y),
      List.mem_cons]
    constructor
    · rintro (⟨h1, h2⟩ | h3)
      · exact Or.inl (by omega)
      · exact Or.inr h3
    · rintro (rfl | h3)
      · exact Or.inl ⟨le_refl x, le_refl x⟩
      · exact Or.inr h3

/-- Witness for C1 at the concrete sorted list `[1, 3, 5]`. -/
theorem format_line_ranges_expand_roundtrip_witness :
    List.Sorted (· ≤ ·) [1, 3, 5] ∧
      ((∀ x, x ∈ expandRanges (format_line_ranges [1, 3, 5]) ↔ x ∈ [1, 3, 5]) ∧
        format_line_ranges [] = "") :=
  ⟨by decide, format_line_ranges_expand_roundtrip [1, 3, 5] (by decide)⟩

theorem goodMap_appendAt (m : CovMap) (k : String) (n : Nat) (h : goodMap m) :
    goodMap (appendAt m k n) := by
  intro q hq
  obtain ⟨q', hq', rfl⟩ := List.mem_map.mp hq
  by_cases hk : q'.1 = k
  · rw [if_pos hk]
    exact h q' hq'
  · rw [if_neg hk]
    exact h q' hq'

theorem parseLcovLine_good (st : ParseState) (line : String)
    (h : goodMap st.uncovered) : goodMap (parseLcovLine st line).uncovered := by
  unfold parseLcovLine
  by_cases h1 : strStartsWith line "SF:" = true
  · rw [if_pos h1]
    dsimp only
    by_cases h2 : (!(strHasSub (strDrop line 3) "/nix/store")
        && (alistLookup (strDrop line 3) st.uncovered).isNone) = true
    · rw [if_pos h2]
      intro q hq
      rcases List.mem_append.mp hq with hq | hq
      · exact h q hq
      · rcases List.mem_singleton.mp hq with rfl
        have := (Bool.and_eq_true _ _).mp h2
        simpa using this.1
    · rw [if_neg h2]
      exact h
  · rw [if_neg h1]
    by_cases h2 : (strStartsWith line "DA:" && truthy st.current && st.is_project) = true
    · rw [if_pos h2]
      cases hc : st.current with
      | none => exact h
      | some cf =>
        dsimp only
        cases hd : parseDA line with
        | none => exact h
        | some p =>
          obtain ⟨line_num, hit_count⟩ := p
          dsimp only
          by_cases hz : hit_count = 0
          · rw [if_pos hz]
            exact goodMap_appendAt _ _ _ h
          · rw [if_neg hz]
            exact h
    · rw [if_neg h2]
      by_cases h3 : line = "end_of_record"
      · rw [if_pos h3]
        exact h
      · rw [if_neg h3]
        exact h

theorem parse_foldl_good : ∀ (lines : List String) (st : ParseState),
    goodMap st.uncovered → goodMap ((lines.foldl parseLcovLine st).uncovered) := by
  intro lines
  induction lines with
  | nil => intro st h; exact h
  | cons l ls ih =>
    intro st h
    exact ih (parseLcovLine st l) (parseLcovLine_good st l h)

theorem alistLookup_mem (k : String) (v : List Nat) :
    ∀ m : CovMap, alistLookup k m = some v → (k, v) ∈ m := by
  intro m
  induction m with
  | nil => intro h; simp [alistLookup] at h
  | cons q rest ih =>
    obtain ⟨k', v'⟩ := q
    intro h
    rw [alistLookup] at h
    by_cases hk : k' = k
    · rw [if_pos hk] at h
      injection h with h2
      subst h2
      subst hk
      exact List.mem_cons_self _ _
    · rw [if_neg hk] at h
      exact List.mem_cons_of_mem _ (ih h)

/-- C4: file identifiers containing the exclusion marker `/nix/store` never
appear in the parser's result (their data lines are never collected, even if
the same identifier starts another section later in the same input), while
an in-scope file's entry holds exactly its zero-hit line numbers. -/
theorem parse_lcov_excluded :
    (∀ (lines : List String) (p : String), strHasSub p "/nix/store" = true →
      alistLookup p (parse_lcov lines) = none) ∧
    parse_lcov ["SF:/nix/store/abc/foo.rs", "DA:1,0", "DA:2,1", "end_of_record",
        "SF:src/lib.rs", "DA:10,0", "DA:11,3", "DA:12,0", "end_of_record",
        "SF:/nix/store/abc/foo.rs", "DA:5,0", "end_of_record"]
      = [("src/lib.rs", [10, 12])] := by
  constructor
  · intro lines p hp
    have hgood : goodMap (parse_lcov lines) :=
      parse_foldl_good lines ⟨[], none, false⟩ (by intro q hq; simp at hq)
    cases he : alistLookup p (parse_lcov lines) with
    | none => rfl
    | some v =>
      have := hgood (p, v) (alistLookup_mem p v _ he)
      simp [hp] at this
  · rfl

/-- Witness for C4's universal part at a concrete excluded path. -/
theorem parse_lcov_excluded_witness :
    strHasSub "/nix/store/zzz-dep/src/x.rs" "/nix/store" = true ∧
      alistLookup "/nix/store/zzz-dep/src/x.rs"
        (parse_lcov ["SF:/nix/store/zzz-dep/src/x.rs", "DA:3,0", "end_of_record"]) = none :=
  ⟨by decide,
    parse_lcov_excluded.1 ["SF:/nix/store/zzz-dep/src/x.rs", "DA:3,0", "end_of_record"]
      "/nix/store/zzz-dep/src/x.rs" (by decide)⟩

theorem takeWhile_all (p : Char → Bool) :
    ∀ l : List Char, (∀ x ∈ l, p x = true) → l.takeWhile p = l := by
  intro l
  induction l with
  | nil => intro _; rfl
  | cons c cs ih =>
    intro h
    rw [List.takeWhile_cons, h c (by simp), ih fun x hx => h x (by simp [hx])]
    rfl

theorem takeWhile_append_stop (p : Char → Bool) (c : Char) (l₂ : List Char)
    (hc : p c = false) :
    ∀ l₁ : List Char, (∀ x ∈ l₁, p x = true) →
      (l₁ ++ c :: l₂).takeWhile p = l₁ ∧ (l₁ ++ c :: l₂).dropWhile p = c :: l₂ := by
  intro l₁
  induction l₁ with
  | nil =>
    intro _
    constructor
    · rw [List.nil_append, List.takeWhile_cons, hc]
      rfl
    · rw [List.nil_append, List.dropWhile_cons, hc]
      rfl
  | cons d ds ih =>
    intro h
    have hd : p d = true := h d (by simp)
    obtain ⟨ih1, ih2⟩ := ih fun x hx => h x (by simp [hx])
    constructor
    · rw [List.cons_append, List.takeWhile_cons, hd, ih1]
      rfl
    · rw [List.cons_append, List.dropWhile_cons, hd, ih2]
      rfl

theorem da_line_data (ln hits : Nat) :
    ("DA:" ++ pyStr ln ++ "," ++ pyStr hits).data
      = 'D' :: 'A' :: ':' :: (render ln ++ ',' :: render hits) := by
  simp [pyStr, String.data_append]

theorem parseDA_wellformed (ln hits : Nat) :
    parseDA ("DA:" ++ pyStr ln ++ "," ++ pyStr hits) = some (ln, hits) := by
  unfold parseDA
  rw [da_line_data]
  have hcomma : isDigitChar ',' = false := by decide
  obtain ⟨htw, hdw⟩ := takeWhile_append_stop isDigitChar ',' (render hits) hcomma
    (render ln) (fun x hx => render_digit ln x hx)
  dsimp only
  rw [if_pos (by exact ⟨rfl, rfl, rfl⟩)]
  rw [htw, hdw]
  rw [if_neg (by simpa [List.isEmpty_iff] using render_ne_nil ln)]
  dsimp only
  rw [if_pos rfl]
  rw [takeWhile_all isDigitChar (render hits) (fun x hx => render_digit hits x hx)]
  rw [if_neg (by simpa [List.isEmpty_iff] using render_ne_nil hits)]
  rw [digitsVal_render, digitsVal_render]

theorem da_not_SF (line : String) (h : strStartsWith line "DA:" = true) :
    strStartsWith line "SF:" = false := by
  unfold strStartsWith at h ⊢
  match hl : line.data with
  | [] => rw [hl] at h; exact absurd h (by decide)
  | c :: r =>
    rw [hl] at h
    show listStarts (c :: r) ('S' :: ['F', ':']) = false
    rw [listStarts] at h ⊢
    have hc : c = 'D' := by
      rcases (Bool.and_eq_true _ _).mp h with ⟨h1, _⟩
      exact eq_of_beq h1
    subst hc
    rw [show ('D' == 'S') = false from by decide, Bool.false_and]

theorem truthy_some (cf : String) (hne : cf ≠ "") : truthy (some cf) = true := by
  obtain ⟨d⟩ := cf
  unfold truthy
  have hd : d ≠ [] := by
    intro h
    subst h
    exact hne rfl
  simp [List.isEmpty_iff, hd]

theorem alistLookup_appendAt (m : CovMap) (k : String) (n : Nat) :
    alistLookup k (appendAt m k n) = (alistLookup k m).map (fun v => v ++ [n]) := by
  induction m with
  | nil => rfl
  | cons q rest ih =>
    obtain ⟨k', v'⟩ := q
    by_cases hk : k' = k
    · subst hk
      dsimp only [appendAt, List.map_cons]
      rw [if_pos rfl, alistLookup, alistLookup, if_pos rfl, if_pos rfl]
      rfl
    · simp only [appendAt, List.map_cons] at ih ⊢
      rw [if_neg hk, alistLookup, alistLookup, if_neg hk, if_neg hk, ih]

/-- C5: while a nonempty current file is set and in scope, a well-formed
data line `DA:<line>,<hits>` appends the line number to that file's
uncovered list exactly when the hit count is zero (so a non-zero hit count
never adds the line number), and a `DA:`-prefixed line that the two-integer
pattern does not match leaves the state unchanged. -/
theorem parseLcovLine_data (st : ParseState) (cf : String) (ln hits : Nat)
    (hcur : st.current = some cf) (hne : cf ≠ "") (hproj : st.is_project = true) :
    (alistLookup cf (parseLcovLine st ("DA:" ++ pyStr ln ++ "," ++ pyStr hits)).uncovered
        = if hits = 0 then (alistLookup cf st.uncovered).map (fun v => v ++ [ln])
          else alistLookup cf st.uncovered) ∧
    (∀ line : String, strStartsWith line "DA:" = true →
      parseDA line = none → parseLcovLine st line = st) := by
  have hDAstep : ∀ line : String, strStartsWith line "DA:" = true →
      parseLcovLine st line =
        (match parseDA line with
          | some (line_num, hit_count) =>
            if hit_count = 0 then { st with uncovered := appendAt st.uncovered cf line_num }
            else st
          | none => st) := by
    intro line hDA
    unfold parseLcovLine
    rw [da_not_SF line hDA]
    rw [if_neg (by simp)]
    rw [hDA, hcur, truthy_some cf hne, hproj]
    rw [if_pos (by simp)]
  constructor
  · set line := "DA:" ++ pyStr ln ++ "," ++ pyStr hits with hline
    have hDA : strStartsWith line "DA:" = true := by
      unfold strStartsWith
      rw [hline, da_line_data, show "DA:".data = ['D', 'A', ':'] from by decide]
      simp [listStarts]
    rw [hDAstep line hDA, parseDA_wellformed]
    by_cases hz : hits = 0
    · rw [if_pos hz]
      dsimp only
      rw [if_pos hz, alistLookup_appendAt]
    · rw [if_neg hz]
      dsimp only
      rw [if_neg hz]
  · intro line hDA hnone
    rw [hDAstep line hDA, hnone]

/-- Witness for C5 at a concrete state and data lines `DA:7,0` / `DA:9,2`. -/
theorem parseLcovLine_data_witness :
    (ParseState.mk [("f.rs", [1])] (some "f.rs") true).current = some "f.rs" ∧
      "f.rs" ≠ "" ∧
      (ParseState.mk [("f.rs", [1])] (some "f.rs") true).is_project = true ∧
      ((alistLookup "f.rs" (parseLcovLine (ParseState.mk [("f.rs", [1])] (some "f.rs") true)
            ("DA:" ++ pyStr 7 ++ "," ++ pyStr 0)).uncovered
          = if (0 : Nat) = 0
            then (alistLookup "f.rs" (ParseState.mk [("f.rs", [1])] (some "f.rs") true).uncovered).map
              (fun v => v ++ [7])
            else alistLookup "f.rs" (ParseState.mk [("f.rs", [1])] (some "f.rs") true).uncovered) ∧
        (∀ line : String, strStartsWith line "DA:" = true →
          parseDA line = none →
          parseLcovLine (ParseState.mk [("f.rs", [1])] (some "f.rs") true) line
            = ParseState.mk [("f.rs", [1])] (some "f.rs") true)) :=
  ⟨rfl, by decide, rfl,
    parseLcovLine_data (ParseState.mk [("f.rs", [1])] (some "f.rs") true) "f.rs" 7 0
      rfl (by decide) rfl⟩

/-- C9: a duplicated `DA:` line with hit count zero is recorded twice by the
parser, and the compactor renders `[n, n]` as the repeated bare number
`"n, n"` rather than merging the duplicate into a run. -/
theorem duplicate_zero_hit :
    parse_lcov ["SF:a.rs", "DA:5,0", "DA:5,0", "end_of_record"] = [("a.rs", [5, 5])] ∧
    ∀ n : Nat, format_line_ranges [n, n] = pyStr n ++ ", " ++ pyStr n := by
  refine ⟨rfl, ?_⟩
  intro n
  show joinCommaSpace ((rangesLoop n n [n]).map renderRange) = _
  have h1 : rangesLoop n n [n] = [(n, n), (n, n)] := by
    rw [rangesLoop, if_neg (by omega)]
    rfl
  have hr : renderRange (n, n) = pyStr n := by simp [renderRange]
  rw [h1, List.map_cons, List.map_cons, List.map_nil, hr]
  rfl

theorem foldl_min_spec : ∀ (xs : List Nat) (a : Nat),
    (xs.foldl min a = a ∨ xs.foldl min a ∈ xs) ∧ xs.foldl min a ≤ a ∧
      ∀ x ∈ xs, xs.foldl min a ≤ x := by
  intro xs
  induction xs with
  | nil => intro a; exact ⟨Or.inl rfl, le_refl a, by simp⟩
  | cons y ys ih =>
    intro a
    obtain ⟨hmem, hle, hall⟩ := ih (min a y)
    rw [List.foldl_cons]
    refine ⟨?_, hle.trans (min_le_left a y), ?_⟩
    · rcases hmem with h | h
      · rcases min_choice a y with hm | hm
        · exact Or.inl (h.trans hm)
        · exact Or.inr (by rw [h, hm]; exact List.mem_cons_self _ _)
      · exact Or.inr (List.mem_cons_of_mem _ h)
    · intro x hx
      rcases List.mem_cons.mp hx with rfl | hx
      · exact hle.trans (min_le_right a x)
      · exact hall x hx

theorem foldl_max_spec : ∀ (xs : List Nat) (a : Nat),
    (xs.foldl max a = a ∨ xs.foldl max a ∈ xs) ∧ a ≤ xs.foldl max a ∧
      ∀ x ∈ xs, x ≤ xs.foldl max a := by
  intro xs
  induction xs with
  | nil => intro a; exact ⟨Or.inl rfl, le_refl a, by simp⟩
  | cons y ys ih =>
    intro a
    obtain ⟨hmem, hle, hall⟩ := ih (max a y)
    rw [List.foldl_cons]
    refine ⟨?_, (le_max_left a y).trans hle, ?_⟩
    · rcases hmem with h | h
      · rcases max_choice a y with hm | hm
        · exact Or.inl (h.trans hm)
        · exact Or.inr (by rw [h, hm]; exact List.mem_cons_self _ _)
      · exact Or.inr (List.mem_cons_of_mem _ h)
    · intro x hx
      rcases List.mem_cons.mp hx with rfl | hx
      · exact (le_max_right a x).trans hle
      · exact hall x hx

theorem pyMin_mem (g : List Nat) (h : g ≠ []) : pyMin g ∈ g := by
  match g, h with
  | x :: xs, _ =>
    rw [pyMin]
    rcases (foldl_min_spec xs x).1 with h1 | h1
    · rw [h1]; exact List.mem_cons_self _ _
    · exact List.mem_cons_of_mem _ h1

theorem pyMax_mem (g : List Nat) (h : g ≠ []) : pyMax g ∈ g := by
  match g, h with
  | x :: xs, _ =>
    rw [pyMax]
    rcases (foldl_max_spec xs x).1 with h1 | h1
    · rw [h1]; exact List.mem_cons_self _ _
    · exact List.mem_cons_of_mem _ h1

theorem getLast?_mem_self (l : List Nat) (a : Nat) (h : l.getLast? = some a) : a ∈ l := by
  induction l with
  | nil => simp at h
  | cons z zs ihz =>
    match zs, h with
    | [], h =>
      simp at h
      simp [h]
    | w :: ws, h =>
      rw [List.getLast?_cons_cons] at h
      exact List.mem_cons_of_mem _ (ihz h)

theorem groupLoop_master (c : Nat) : ∀ (ns cur : List Nat) (last : Nat),
    cur ≠ [] → cur.getLast? = some last → (∀ x ∈ cur, x ≤ last) →
    withinGroup c cur → List.Sorted (· ≤ ·) (cur ++ ns) →
    (groupLoop c cur last ns).flatten = cur ++ ns ∧
    (∀ g ∈ groupLoop c cur last ns, g ≠ [] ∧ withinGroup c g) ∧
    List.Chain' (boundaryGap c) (groupLoop c cur last ns) ∧
    List.Pairwise (fun g₁ g₂ => pyMax g₁ + 2 * c < pyMin g₂) (groupLoop c cur last ns) ∧
    ∀ g ∈ (groupLoop c cur last ns).head?, g.head? = cur.head? := by
  intro ns
  induction ns with
  | nil =>
    intro cur last hne hlast hbound hwithin _
    refine ⟨by simp [groupLoop], ?_, by simp [groupLoop], by simp [groupLoop], ?_⟩
    · intro g hg
      simp only [groupLoop, List.mem_singleton] at hg
      subst hg
      exact ⟨hne, hwithin⟩
    · intro g hg
      simp only [groupLoop, List.head?_cons, Option.mem_some_iff] at hg
      subst hg
      rfl
  | cons n ns ih =>
    intro cur last hne hlast hbound hwithin hsorted
    obtain ⟨c₀, curt, rfl⟩ := List.exists_cons_of_ne_nil hne
    have hlastmem : last ∈ c₀ :: curt := getLast?_mem_self _ _ hlast
    have hlastn : last ≤ n := by
      have h1 := (List.pairwise_append.mp hsorted).2.2
      exact h1 last hlastmem n (by simp)
    rw [groupLoop]
    by_cases hle : (n : Int) - last ≤ 2 * c
    · rw [if_pos hle]
      have hres := ih ((c₀ :: curt) ++ [n]) n (by simp) (List.getLast?_concat _)
        (by
          intro x hx
          rcases List.mem_append.mp hx with hx | hx
          · exact (hbound x hx).trans hlastn
          · rw [List.mem_singleton.mp hx])
        (by
          unfold withinGroup at hwithin ⊢
          rw [List.chain'_append]
          refine ⟨hwithin, List.chain'_singleton n, ?_⟩
          intro x hx y hy
          rw [hlast, Option.mem_some_iff] at hx
          rw [List.head?_cons, Option.mem_some_iff] at hy
          subst hx
          subst hy
          exact hle)
        (by simpa using hsorted)
      obtain ⟨hflat, hall, hchain, hpair, hhead⟩ := hres
      refine ⟨by rw [hflat]; simp, hall, hchain, hpair, ?_⟩
      intro g hg
      rw [hhead g hg]
      simp
    · rw [if_neg hle]
      have hsorted' : List.Sorted (· ≤ ·) ([n] ++ ns) :=
        hsorted.sublist (List.sublist_append_right _ _)
      have hres := ih [n] n (by simp) (by simp) (by simp)
        (by unfold withinGroup; exact List.chain'_singleton n) hsorted'
      obtain ⟨hflat, hall, hchain, hpair, hhead⟩ := hres
      refine ⟨?_, ?_, ?_, ?_, ?_⟩
      · rw [List.flatten_cons, hflat]
        simp
      · intro g hg
        rcases List.mem_cons.mp hg with rfl | hg
        · exact ⟨by simp, hwithin⟩
        · exact hall g hg
      · rw [List.chain'_cons']
        refine ⟨?_, hchain⟩
        intro g hg
        intro x hx y hy
        have hxl : some last = some x := hlast.symm.trans hx
        injection hxl with hxl
        have hgh : g.head? = some n := by rw [hhead g hg]; rfl
        have hyn : some n = some y := hgh.symm.trans hy
        injection hyn with hyn
        subst hxl
        subst hyn
        omega
      · rw [List.pairwise_cons]
        refine ⟨?_, hpair⟩
        intro g hg
        have hgne := (hall g hg).1
        have hminmem := pyMin_mem g hgne
        have hxin : pyMin g ∈ [n] ++ ns := by
          rw [← hflat]
          exact List.mem_flatten.mpr ⟨g, hg, hminmem⟩
        have hn_le : n ≤ pyMin g := by
          rcases List.mem_cons.mp hxin with h | h
          · omega
          · exact (List.sorted_cons.mp hsorted').1 _ h
        have hmaxle : pyMax (c₀ :: curt) ≤ last :=
          hbound _ (pyMax_mem _ (by simp))
        omega
      · intro g hg
        rw [List.head?_cons, Option.mem_some_iff] at hg
        subst hg
        rfl

theorem computeGroups_gap (context : Nat) (l : List Nat)
    (hs : List.Sorted (· ≤ ·) l) :
    List.Pairwise (fun g₁ g₂ => pyMax g₁ + 2 * context < pyMin g₂)
      (computeGroups context l) := by
  match l, hs with
  | [], _ => simp [computeGroups]
  | x :: xs, hs =>
    exact (groupLoop_master context xs [x] x (by simp) (by simp) (by simp)
      (by unfold withinGroup; exact List.chain'_singleton x) (by simpa using hs)).2.2.2.1

/-- C2: on a sorted uncovered-line list the grouping loop partitions the
list (the groups flatten back to it, every group is nonempty), consecutive
lines inside a group are within `2 * context` of each other while the gap
across a group boundary exceeds `2 * context`; in particular two lines with
gap at most `2 * context` form one group and two lines with a larger gap
form two groups. -/
theorem computeGroups_partition (context : Nat) (l : List Nat)
    (hs : List.Sorted (· ≤ ·) l) :
    (computeGroups context l).flatten = l ∧
    (∀ g ∈ computeGroups context l, g ≠ [] ∧ withinGroup context g) ∧
    List.Chain' (boundaryGap context) (computeGroups context l) ∧
    (∀ a b : Nat, a ≤ b →
      ((b : Int) - a ≤ 2 * context → computeGroups context [a, b] = [[a, b]]) ∧
      (2 * context < (b : Int) - a → computeGroups context [a, b] = [[a], [b]])) := by
  have htwo : ∀ a b : Nat, a ≤ b →
      ((b : Int) - a ≤ 2 * context → computeGroups context [a, b] = [[a, b]]) ∧
      (2 * context < (b : Int) - a → computeGroups context [a, b] = [[a], [b]]) := by
    intro a b _
    constructor
    · intro h
      show groupLoop context [a] a [b] = [[a, b]]
      rw [groupLoop, if_pos h]
      rfl
    · intro h
      show groupLoop context [a] a [b] = [[a], [b]]
      rw [groupLoop, if_neg (by omega)]
      rfl
  match l, hs with
  | [], _ => exact ⟨rfl, by simp [computeGroups], by simp [computeGroups], htwo⟩
  | x :: xs, hs =>
    obtain ⟨h1, h2, h3, _, _⟩ := groupLoop_master context xs [x] x (by simp) (by simp)
      (by simp) (List.chain'_singleton x) (by simpa using hs)
    exact ⟨h1, h2, h3, htwo⟩

/-- Witness for C2 at the sorted list `[1, 2, 10]` with context 3. -/
theorem computeGroups_partition_witness :
    List.Sorted (· ≤ ·) [1, 2, 10] ∧
      ((computeGroups 3 [1, 2, 10]).flatten = [1, 2, 10] ∧
        (∀ g ∈ computeGroups 3 [1, 2, 10], g ≠ [] ∧ withinGroup 3 g) ∧
        List.Chain' (boundaryGap 3) (computeGroups 3 [1, 2, 10]) ∧
        (∀ a b : Nat, a ≤ b →
          ((b : Int) - a ≤ 2 * 3 → computeGroups 3 [a, b] = [[a, b]]) ∧
          (2 * 3 < (b : Int) - a → computeGroups 3 [a, b] = [[a], [b]]))) :=
  ⟨by decide, computeGroups_partition 3 [1, 2, 10] (by decide)⟩

theorem mem_renderedNums (source_lines : List String) (context : Nat)
    (g : List Nat) (x : Nat) :
    x ∈ renderedNums source_lines context g ↔
      max 1 (pyMin g - context) ≤ x ∧
        x ≤ min source_lines.length (pyMax g + context) := by
  simp only [renderedNums, snippetOf, group_start_idx, group_end_idx,
    List.mem_range'_1, List.length_take, List.length_drop]
  omega

/-- C3: the line numbers rendered for a group are exactly the window
`[min(group) - context, max(group) + context]` clamped to the file's line
bounds; in particular no rendered line number is below 1 or above the
file's total line count. -/
theorem snippet_window_clamped (source_lines : List String) (context : Nat)
    (g : List Nat) :
    (∀ x ∈ renderedNums source_lines context g, 1 ≤ x ∧ x ≤ source_lines.length) ∧
    (∀ x, x ∈ renderedNums source_lines context g ↔
      max 1 (pyMin g - context) ≤ x ∧
        x ≤ min source_lines.length (pyMax g + context)) := by
  constructor
  · intro x hx
    rw [mem_renderedNums] at hx
    omega
  · intro x
    exact mem_renderedNums source_lines context g x

/-- C10: for a sorted uncovered-line list, the windows rendered for
distinct groups are pairwise disjoint, so every source line appears in at
most one snippet block. -/
theorem snippet_windows_disjoint (source_lines : List String) (context : Nat)
    (l : List Nat) (hs : List.Sorted (· ≤ ·) l) :
    List.Pairwise (fun g₁ g₂ => ∀ x, x ∈ renderedNums source_lines context g₁ →
      x ∉ renderedNums source_lines context g₂) (computeGroups context l) := by
  refine (computeGroups_gap context l hs).imp ?_
  intro g₁ g₂ h x hx1 hx2
  rw [mem_renderedNums] at hx1 hx2
  omega

/-- Witness for C10 at the sorted list `[1, 10]` with context 1 over a
4-line file. -/
theorem snippet_windows_disjoint_witness :
    List.Sorted (· ≤ ·) [1, 10] ∧
      List.Pairwise (fun g₁ g₂ => ∀ x, x ∈ renderedNums ["a", "b", "c", "d"] 1 g₁ →
        x ∉ renderedNums ["a", "b", "c", "d"] 1 g₂) (computeGroups 1 [1, 10]) :=
  ⟨by decide, snippet_windows_disjoint ["a", "b", "c", "d"] 1 [1, 10] (by decide)⟩

theorem perFile_head (uncovered_lines : CovMap) (src_root : String) (fs : FS)
    (context : Nat) (g : String) :
    ("\n## " ++ g ++ "\n") ∈ perFile uncovered_lines src_root fs context g := by
  unfold perFile read_source_file
  cases h : fs.read (resolvePath fs src_root g) <;> simp [h]

theorem mem_sorted_files (uncovered_lines : CovMap) (f : String) (v : List Nat)
    (hv : alistLookup f uncovered_lines = some v) (hne : v ≠ []) :
    f ∈ sorted_files uncovered_lines := by
  unfold sorted_files
  refine (List.perm_insertionSort _ _).mem_iff.mpr ?_
  refine List.mem_map.mpr ⟨(f, v), List.mem_filter.mpr ⟨alistLookup_mem f v _ hv, ?_⟩, rfl⟩
  simp [List.isEmpty_iff, hne]

/-- C6: when a file's resolved source cannot be read, its report section is
exactly the warning marker plus the compacted uncovered ranges (no snippet
blocks), every other file with uncovered lines still gets its section, and
a run whose coverage file is readable still ends in success whatever the
source-file reads do. -/
theorem unreadable_source_degrades (uncovered_lines : CovMap) (src_root : String)
    (fs : FS) (context : Nat) (f : String) (v : List Nat)
    (hv : alistLookup f uncovered_lines = some v) (hne : v ≠ [])
    (hread : fs.read (resolvePath fs src_root f) = none) :
    (∃ pre post, report_line_list uncovered_lines src_root fs context
        = pre ++ ["\n## " ++ f ++ "\n",
            "⚠️ **Unable to read source file**\n",
            "Uncovered lines: " ++ format_line_ranges (sortNums v) ++ "\n"] ++ post) ∧
    (∀ g w, alistLookup g uncovered_lines = some w → w ≠ [] →
      ("\n## " ++ g ++ "\n") ∈ report_line_list uncovered_lines src_root fs context) ∧
    (∀ (a₀ a₁ a₂ : String) (rest : List String) (cwd : String) (lines : List String),
      fs.pathExists a₁ = true → fs.read a₁ = some lines →
      main_model fs (a₀ :: a₁ :: a₂ :: rest) cwd
        = Except.ok (generate_report (parse_lcov lines) (rest.headD cwd) fs 3)) := by
  refine ⟨?_, ?_, ?_⟩
  · have hperf : perFile uncovered_lines src_root fs context f
        = ["\n## " ++ f ++ "\n",
           "⚠️ **Unable to read source file**\n",
           "Uncovered lines: " ++ format_line_ranges (sortNums v) ++ "\n"] := by
      unfold perFile read_source_file
      simp only [hv, hread, Option.getD_some]
    obtain ⟨l₁, l₂, hsplit⟩ := List.append_of_mem (mem_sorted_files _ f v hv hne)
    refine ⟨reportHeader uncovered_lines context
        ++ l₁.flatMap (perFile uncovered_lines src_root fs context),
      l₂.flatMap (perFile uncovered_lines src_root fs context) ++ reportFooter, ?_⟩
    rw [report_line_list, hsplit, List.flatMap_append, List.flatMap_cons, hperf]
    simp [List.append_assoc]
  · intro g w hw hwne
    rw [report_line_list]
    refine List.mem_append.mpr (Or.inl (List.mem_append.mpr (Or.inr ?_)))
    exact List.mem_flatMap.mpr
      ⟨g, mem_sorted_files _ g w hw hwne, perFile_head _ _ _ _ g⟩
  · intro a₀ a₁ a₂ rest cwd lines hex hrd
    rw [main_model]
    rw [hex, hrd]
    rfl

/-- Witness for C6 at a one-file mapping over a file system that can read
nothing but the coverage file itself. -/
theorem unreadable_source_degrades_witness :
    alistLookup "m.rs" [("m.rs", [3])] = some [3] ∧ ([3] : List Nat) ≠ [] ∧
      (FS.mk (fun p => p == "cov.info") (fun p => if p == "cov.info" then some [] else none)).read
        (resolvePath (FS.mk (fun p => p == "cov.info")
          (fun p => if p == "cov.info" then some [] else none)) "/r" "m.rs") = none ∧
      ((∃ pre post, report_line_list [("m.rs", [3])] "/r"
          (FS.mk (fun p => p == "cov.info") (fun p => if p == "cov.info" then some [] else none)) 3
          = pre ++ ["\n## " ++ "m.rs" ++ "\n",
              "⚠️ **Unable to read source file**\n",
              "Uncovered lines: " ++ format_line_ranges (sortNums [3]) ++ "\n"] ++ post) ∧
        (∀ g w, alistLookup g [("m.rs", [3])] = some w → w ≠ [] →
          ("\n## " ++ g ++ "\n") ∈ report_line_list [("m.rs", [3])] "/r"
            (FS.mk (fun p => p == "cov.info") (fun p => if p == "cov.info" then some [] else none)) 3) ∧
        (∀ (a₀ a₁ a₂ : String) (rest : List String) (cwd : String) (lines : List String),
          (FS.mk (fun p => p == "cov.info")
            (fun p => if p == "cov.info" then some [] else none)).pathExists a₁ = true →
          (FS.mk (fun p => p == "cov.info")
            (fun p => if p == "cov.info" then some [] else none)).read a₁ = some lines →
          main_model (FS.mk (fun p => p == "cov.info")
              (fun p => if p == "cov.info" then some [] else none)) (a₀ :: a₁ :: a₂ :: rest) cwd
            = Except.ok (generate_report (parse_lcov lines) (rest.headD cwd)
                (FS.mk (fun p => p == "cov.info")
                  (fun p => if p == "cov.info" then some [] else none)) 3))) :=
  ⟨rfl, by decide, rfl,
    unreadable_source_degrades [("m.rs", [3])] "/r"
      (FS.mk (fun p => p == "cov.info") (fun p => if p == "cov.info" then some [] else none)) 3
      "m.rs" [3] rfl (by decide) rfl⟩

/-- C7: a missing or unreadable coverage data file makes the run fail with
a diagnostic and no report output. -/
theorem main_fatal_input (fs : FS) (a₀ a₁ a₂ : String) (rest : List String)
    (cwd : String) (h : fs.pathExists a₁ = false ∨ fs.read a₁ = none) :
    ∃ msg, main_model fs (a₀ :: a₁ :: a₂ :: rest) cwd = Except.error msg := by
  rcases h with h | h
  · refine ⟨"Error: LCOV file not found: " ++ a₁, ?_⟩
    rw [main_model, h]
    rfl
  · by_cases hex : fs.pathExists a₁ = true
    · refine ⟨"Error reading LCOV file", ?_⟩
      rw [main_model, hex, h]
      rfl
    · refine ⟨"Error: LCOV file not found: " ++ a₁, ?_⟩
      rw [Bool.not_eq_true] at hex
      rw [main_model, hex]
      rfl

/-- Witness for C7 with a file system on which the coverage file does not
exist. -/
theorem main_fatal_input_witness :
    ((FS.mk (fun _ => false) (fun _ => none)).pathExists "c.info" = false ∨
      (FS.mk (fun _ => false) (fun _ => none)).read "c.info" = none) ∧
    ∃ msg, main_model (FS.mk (fun _ => false) (fun _ => none))
      ["prog", "c.info", "out.md"] "/root" = Except.error msg :=
  ⟨Or.inl rfl,
    main_fatal_input (FS.mk (fun _ => false) (fun _ => none)) "prog" "c.info" "out.md"
      [] "/root" (Or.inl rfl)⟩

/-- C8: on the two-file example input (one file with lines 10 and 11
uncovered, context 3) the report's summary counts exactly 1 file and 2
uncovered lines, there is exactly one snippet, spanning lines 7 to 14, with
the uncovered marker exactly on lines 10 and 11 and the context marker on
the other six window lines. -/
theorem end_to_end_report :
    ("- **Total Files**: 1\n") ∈ exampleReport ∧
    ("- **Total Uncovered Lines**: 2\n\n") ∈ exampleReport ∧
    (exampleReport.filter (fun s => strStartsWith s "### Snippet")).length = 1 ∧
    ("### Snippet 1 (Lines 7-14)\n\n") ∈ exampleReport ∧
    ("❌   10 | ten\n") ∈ exampleReport ∧
    ("❌   11 | eleven\n") ∈ exampleReport ∧
    (exampleReport.filter (fun s => strStartsWith s "❌")).length = 2 ∧
    (exampleReport.filter (fun s => strStartsWith s "❌" || strStartsWith s "  ")).length = 8 ∧
    ("      7 | seven\n") ∈ exampleReport ∧
    ("      8 | eight\n") ∈ exampleReport ∧
    ("      9 | nine\n") ∈ exampleReport ∧
    ("     12 | twelve\n") ∈ exampleReport ∧
    ("     13 | thirteen\n") ∈ exampleReport ∧
    ("     14 | fourteen\n") ∈ exampleReport := by
  decide

end Lcov
